import Mathlib

/-!
Verification of the `waver` simulation component
(`src/waver/components/simulation.py`).

Two models are developed, both translated from the source:

* a state-machine model of the `Simulation` object (its `run`, `wave`,
  `add_source` and `set_boundaries` members), parametric in the grid type `G`
  and the field-value type `F`; the source term is an arbitrary, possibly
  failing, value function so that mid-loop failures can be expressed;

* a real-number model of the time-step derivation performed in
  `Simulation.__init__` (lines 37-49), together with a small model of IEEE
  special values (`EFloat`) for the paths where the maximum speed is zero or
  non-finite.

`Grid`, `Time` and `Source` live in sibling modules that are not part of the
sources at hand; where their behaviour matters it is modelled from the spec
and flagged as such in the doc comments.
-/

namespace Waver

/-- Error classes observable from `simulation.py`.  The Python code raises
`ValueError` both for the spec's StateError sites (`wave` before `run`, `run`
without a source) and at construction; `Err.state` stands for those.
`Err.typeError` is Python's `TypeError` (arity mismatch), and `Err.srcFail`
stands for an arbitrary exception propagating out of `source.value` inside the
time-stepping loop. -/
inductive Err where
  | state
  | typeError
  | srcFail
  deriving DecidableEq, Repr

/-- State of a `Simulation` object (`simulation.py` lines 16-53): the grid,
the derived time step and step count, the optional source (represented by its
value function, fallible so that loop failures can be modelled), the dense
field array `_wave` (one entry per time step; each entry is a spatial field of
abstract type `F`), and the `_run` flag. -/
structure SimState (G F : Type) where
  grid : G
  timeStep : ℚ
  nsteps : ℕ
  source : Option (ℚ → Option F)
  wave : List F
  hasRun : Bool

variable {G F : Type}

/-- Initial state after `Simulation.__init__` (lines 51-53): zero-filled wave
array of length `nsteps`, no source, `_run = False`. -/
def mkSimState [Zero F] (g : G) (timeStep : ℚ) (nsteps : ℕ) : SimState G F :=
  ⟨g, timeStep, nsteps, none, List.replicate nsteps 0, false⟩

/-- `Simulation.add_source` (lines 95-128): stores a new source and clears the
`_run` flag.  The built `Source` object is abstracted by its value function. -/
def addSource (s : SimState G F) (val : ℚ → Option F) : SimState G F :=
  { s with source := some val, hasRun := false }

/-- The time-stepping loop of `Simulation.run` (lines 89-92), starting at step
index `k` with `n` iterations left: each iteration evaluates the source at
`current_time = step * current_step` and writes the snapshot into slot `k` of
the wave array.  Python mutates the array in place, so on a failing evaluation
the partially written array is returned together with `false`. -/
def runFrom (val : ℚ → Option F) (step : ℚ) : ℕ → ℕ → List F → List F × Bool
  | _, 0, w => (w, true)
  | k, n + 1, w =>
    match val (step * (k : ℚ)) with
    | none => (w, false)
    | some x => runFrom val step (k + 1) n (w.set k x)

/-- `Simulation.run` (lines 81-93): raises (`Err.state`) when no source is
set; otherwise runs the loop over all `nsteps` steps and sets `_run = True`
only after the loop completes.  On a mid-loop failure the exception
propagates (`Err.srcFail`) and the object keeps the partially written wave
and its previous `_run` flag. -/
def runSim (s : SimState G F) : SimState G F × Option Err :=
  match s.source with
  | none => (s, some .state)
  | some val =>
    let r := runFrom val s.timeStep 0 s.nsteps s.wave
    if r.2 then ({ s with wave := r.1, hasRun := true }, none)
    else ({ s with wave := r.1 }, some .srcFail)

/-- The `Simulation.wave` property (lines 73-79): returns the wave array when
`_run` is set, raises otherwise. -/
def waveAccessor (s : SimState G F) : Except Err (List F) :=
  if s.hasRun then .ok s.wave else .error .state

/-- An argument of a Python-level call to `set_boundaries`: either the
implicitly passed instance or an explicit boundary-condition list. -/
inductive PyArg (G F : Type) where
  | self (s : SimState G F)
  | boundaries (b : List (String × String))

/-- The function object `set_boundaries` (lines 130-143): it declares the
single parameter `boundaries` (there is no `self` parameter in the source)
and its body is `pass`. -/
def set_boundaries (boundaries : PyArg G F) : Except Err Unit :=
  .ok ()

/-- Python bound-method call semantics: `s.f(args)` invokes the function with
the instance prepended to the explicit arguments; a one-parameter function
called with any explicit argument therefore receives two arguments and raises
`TypeError` before its body runs. -/
def pyBoundCall1 (f : PyArg G F → Except Err Unit) (self : SimState G F)
    (explicitArgs : List (PyArg G F)) : Except Err Unit :=
  match explicitArgs with
  | [] => f (.self self)
  | _ :: _ => .error .typeError

/-- The call `sim.set_boundaries(b)` as a caller following the documented
interface performs it. -/
def setBoundariesCall (s : SimState G F) (b : List (String × String)) :
    Except Err Unit :=
  pyBoundCall1 set_boundaries s [.boundaries b]

/-- States of a `Simulation` object reachable through its public interface:
the freshly constructed state, and the results of `add_source` and `run`
(`set_boundaries` never touches the state). -/
inductive Reach [Zero F] : SimState G F → Prop
  | init (g : G) (ts : ℚ) (n : ℕ) : Reach (mkSimState g ts n)
  | add {s : SimState G F} (val : ℚ → Option F) : Reach s → Reach (addSource s val)
  | step {s : SimState G F} : Reach s → Reach (runSim s).1

/-- The loop preserves the length of the wave array. -/
theorem runFrom_length (val : ℚ → Option F) (step : ℚ) (n : ℕ) :
    ∀ (k : ℕ) (w : List F), ((runFrom val step k n w).1).length = w.length := by
  induction n with
  | zero => intro k w; rfl
  | succ n ih =>
    intro k w
    simp only [runFrom]
    cases hval : val (step * (k : ℚ)) with
    | none => rfl
    | some x => simpa using ih (k + 1) (w.set k x)

/-- Whether the loop completes does not depend on the array it writes into. -/
theorem runFrom_snd_indep (val : ℚ → Option F) (step : ℚ) (n : ℕ) :
    ∀ (k : ℕ) (w w' : List F),
      (runFrom val step k n w).2 = (runFrom val step k n w').2 := by
  induction n with
  | zero => intro k w w'; rfl
  | succ n ih =>
    intro k w w'
    simp only [runFrom]
    cases hval : val (step * (k : ℚ)) with
    | none => rfl
    | some x => exact ih (k + 1) (w.set k x) (w'.set k x)

/-- The loop never touches slots below its starting index. -/
theorem runFrom_frame (val : ℚ → Option F) (step : ℚ) (n : ℕ) :
    ∀ (k : ℕ) (w : List F) (j : ℕ), j < k →
      ((runFrom val step k n w).1)[j]? = w[j]? := by
  induction n with
  | zero => intro k w j _; rfl
  | succ n ih =>
    intro k w j hj
    simp only [runFrom]
    cases hval : val (step * (k : ℚ)) with
    | none => rfl
    | some x =>
      rw [ih (k + 1) (w.set k x) j (Nat.lt_succ_of_lt hj)]
      exact List.getElem?_set_ne (Nat.ne_of_gt hj)

/-- Unfolding the loop when the source evaluation fails at the current step. -/
theorem runFrom_succ_none {val : ℚ → Option F} {step : ℚ} {k : ℕ}
    (n : ℕ) (w : List F) (h : val (step * (k : ℚ)) = none) :
    runFrom val step k (n + 1) w = (w, false) := by
  simp [runFrom, h]

/-- Unfolding the loop when the source evaluation succeeds at the current
step. -/
theorem runFrom_succ_some {val : ℚ → Option F} {step : ℚ} {k : ℕ} {x : F}
    (n : ℕ) (w : List F) (h : val (step * (k : ℚ)) = some x) :
    runFrom val step k (n + 1) w = runFrom val step (k + 1) n (w.set k x) := by
  simp [runFrom, h]

/-- When the loop completes, every slot it visited holds the source snapshot
for that step. -/
theorem runFrom_ok_getElem (val : ℚ → Option F) (step : ℚ) (n : ℕ) :
    ∀ (k : ℕ) (w : List F), (runFrom val step k n w).2 = true →
      ∀ j : ℕ, k ≤ j → j < k + n → j < w.length →
        ((runFrom val step k n w).1)[j]? = val (step * (j : ℚ)) := by
  induction n with
  | zero =>
    intro k w _ j hkj hjn _
    exact absurd hjn (by omega)
  | succ n ih =>
    intro k w hok j hkj hjn hjw
    cases hval : val (step * (k : ℚ)) with
    | none => rw [runFrom_succ_none n w hval] at hok; exact absurd hok (by simp)
    | some x =>
      rw [runFrom_succ_some n w hval] at hok ⊢
      rcases Nat.eq_or_lt_of_le hkj with heq | hlt
      · subst heq
        rw [runFrom_frame val step n (k + 1) (w.set k x) k (Nat.lt_succ_self k)]
        rw [List.getElem?_set_eq_of_lt x hjw, hval]
      · exact ih (k + 1) (w.set k x) hok j hlt (by omega) (by simpa using hjw)

/-- Unfolding `runSim` when no source has been added. -/
theorem runSim_of_none {s : SimState G F} (h : s.source = none) :
    runSim s = (s, some Err.state) := by
  simp [runSim, h]

/-- Unfolding `runSim` when a source is present. -/
theorem runSim_of_some {s : SimState G F} {val : ℚ → Option F}
    (h : s.source = some val) :
    runSim s = if (runFrom val s.timeStep 0 s.nsteps s.wave).2
      then ({ s with wave := (runFrom val s.timeStep 0 s.nsteps s.wave).1, hasRun := true }, none)
      else ({ s with wave := (runFrom val s.timeStep 0 s.nsteps s.wave).1 }, some Err.srcFail) := by
  simp [runSim, h]

/-- Reachable states keep the wave array at length `nsteps`. -/
theorem reach_wave_length [Zero F] {s : SimState G F} (h : Reach s) :
    s.wave.length = s.nsteps := by
  induction h with
  | init g ts n => simp [mkSimState]
  | @add s val h ih => simpa [addSource] using ih
  | @step s h ih =>
    cases hsrc : s.source with
    | none => rw [runSim_of_none hsrc]; exact ih
    | some val =>
      rw [runSim_of_some hsrc]
      cases hb : (runFrom val s.timeStep 0 s.nsteps s.wave).2 with
      | true => simp [hb, runFrom_length, ih]
      | false => simp [hb, runFrom_length, ih]

/-- In a reachable state the `_run` flag can only be set when a source is
present whose loop completes on any wave array of the right span: a
successful run is the only way to set the flag and nothing that changes the
source or the time parameters leaves it set. -/
theorem reach_hasRun_loop_ok [Zero F] {s : SimState G F} (h : Reach s) :
    s.hasRun = true → ∃ val, s.source = some val ∧
      ∀ w : List F, (runFrom val s.timeStep 0 s.nsteps w).2 = true := by
  induction h with
  | init g ts n => intro hr; simp [mkSimState] at hr
  | @add s val h ih => intro hr; simp [addSource] at hr
  | @step s h ih =>
    intro hr
    cases hsrc : s.source with
    | none =>
      rw [runSim_of_none hsrc] at hr ⊢
      exact ih hr
    | some val =>
      rw [runSim_of_some hsrc] at hr ⊢
      cases hb : (runFrom val s.timeStep 0 s.nsteps s.wave).2 with
      | true =>
        simp only [hb, if_true]
        refine ⟨val, by simpa using hsrc, fun w => ?_⟩
        calc (runFrom val s.timeStep 0 s.nsteps w).2
            = (runFrom val s.timeStep 0 s.nsteps s.wave).2 :=
              runFrom_snd_indep val s.timeStep s.nsteps 0 w s.wave
          _ = true := hb
      | false =>
        simp only [hb, if_false] at hr
        rcases ih hr with ⟨val2, hval2, hall⟩
        rw [hsrc] at hval2
        cases hval2
        exact absurd (hall s.wave) (by simp [hb])

/-- A sample total source value function. -/
def sampleVal : ℚ → Option ℚ := fun _ => some 0

/-- A sample source value function that fails at every step. -/
def failVal : ℚ → Option ℚ := fun _ => none

/-- A two-step simulation with a total source. -/
def sampleSim2 : SimState Unit ℚ := addSource (mkSimState () 1 2) sampleVal

/-- A one-step simulation with a failing source. -/
def sampleSimFail : SimState Unit ℚ := addSource (mkSimState () 1 1) failVal

/-- Claim C4: when `run()` completes without error, every slot `k` of the
wave array holds the source snapshot `source.value(k * Time.step)` — the
per-step update is exactly the source snapshot, no propagation applied — and
`hasRun` is true on completion (`simulation.py` lines 89-93). -/
theorem run_fills_source_snapshots [Zero F] {s s' : SimState G F}
    {val : ℚ → Option F}
    (hreach : Reach s) (hsrc : s.source = some val)
    (hrun : runSim s = (s', none)) :
    s'.hasRun = true ∧
      ∀ k : ℕ, k < s.nsteps → s'.wave[k]? = val ((k : ℚ) * s.timeStep) := by
  rw [runSim_of_some hsrc] at hrun
  cases hb : (runFrom val s.timeStep 0 s.nsteps s.wave).2 with
  | false => rw [hb] at hrun; simp at hrun
  | true =>
    rw [hb] at hrun
    simp at hrun
    subst hrun
    refine ⟨rfl, fun k hk => ?_⟩
    show ((runFrom val s.timeStep 0 s.nsteps s.wave).1)[k]? = val ((k : ℚ) * s.timeStep)
    rw [mul_comm]
    exact runFrom_ok_getElem val s.timeStep s.nsteps 0 s.wave hb k (Nat.zero_le k)
      (by omega) (by rw [reach_wave_length hreach]; exact hk)

/-- Concrete instantiation of `run_fills_source_snapshots`. -/
theorem run_fills_source_snapshots_witness :
    Reach sampleSim2 ∧ sampleSim2.source = some sampleVal ∧
      ((runSim sampleSim2).1.hasRun = true ∧
        ∀ k : ℕ, k < sampleSim2.nsteps →
          (runSim sampleSim2).1.wave[k]? = sampleVal ((k : ℚ) * sampleSim2.timeStep)) :=
  ⟨Reach.add sampleVal (Reach.init () 1 2), rfl,
    run_fills_source_snapshots (Reach.add sampleVal (Reach.init () 1 2)) rfl rfl⟩

/-- Claim C5: a `run()` invocation that fails (in particular, partway through
the time-stepping loop) leaves `hasRun = false` on any state reachable
through the public interface, so the half-filled wave array is not exposed as
valid (`simulation.py` lines 81-93: `_run` is only set after the loop
completes, and every path that could have set it earlier is invalidated by
`add_source`). -/
theorem failed_run_leaves_hasRun_false [Zero F] {s s' : SimState G F}
    {e : Err} (hreach : Reach s) (hrun : runSim s = (s', some e)) :
    s'.hasRun = false := by
  cases hsrc : s.source with
  | none =>
    rw [runSim_of_none hsrc] at hrun
    simp at hrun
    obtain ⟨rfl, rfl⟩ := hrun
    cases hr : s.hasRun with
    | false => rfl
    | true =>
      rcases reach_hasRun_loop_ok hreach hr with ⟨val, hval, -⟩
      rw [hsrc] at hval
      cases hval
  | some val =>
    rw [runSim_of_some hsrc] at hrun
    cases hb : (runFrom val s.timeStep 0 s.nsteps s.wave).2 with
    | true => rw [hb] at hrun; simp at hrun
    | false =>
      rw [hb] at hrun
      simp at hrun
      obtain ⟨rfl, rfl⟩ := hrun
      show s.hasRun = false
      cases hr : s.hasRun with
      | false => rfl
      | true =>
        rcases reach_hasRun_loop_ok hreach hr with ⟨val2, hval2, hall⟩
        rw [hsrc] at hval2
        cases hval2
        exact absurd (hall s.wave) (by simp [hb])

/-- Concrete instantiation of `failed_run_leaves_hasRun_false`. -/
theorem failed_run_leaves_hasRun_false_witness :
    Reach sampleSimFail ∧ (runSim sampleSimFail).1.hasRun = false :=
  ⟨Reach.add failVal (Reach.init () 1 1),
    failed_run_leaves_hasRun_false (Reach.add failVal (Reach.init () 1 1)) rfl⟩

/-- Claim C6: reading `wave` raises the StateError exactly when `hasRun` is
false; after `add_source` the accessor raises until another `run()` completes,
after which it returns the wave array (`simulation.py` lines 73-79 and
120-121). -/
theorem wave_accessor_requires_run (s s2 : SimState G F) (val : ℚ → Option F)
    (hrun2 : runSim (addSource s val) = (s2, none)) :
    (waveAccessor s = Except.error Err.state ↔ s.hasRun = false) ∧
      waveAccessor (addSource s val) = Except.error Err.state ∧
      waveAccessor s2 = Except.ok s2.wave := by
  refine ⟨?_, ?_, ?_⟩
  · cases hr : s.hasRun with
    | true => simp [waveAccessor, hr]
    | false => simp [waveAccessor, hr]
  · simp [waveAccessor, addSource]
  · have hsrc : (addSource s val).source = some val := rfl
    rw [runSim_of_some hsrc] at hrun2
    cases hb : (runFrom val (addSource s val).timeStep 0 (addSource s val).nsteps
        (addSource s val).wave).2 with
    | false => rw [hb] at hrun2; simp at hrun2
    | true =>
      rw [hb] at hrun2
      simp at hrun2
      subst hrun2
      simp [waveAccessor]

/-- Concrete instantiation of `wave_accessor_requires_run`. -/
theorem wave_accessor_requires_run_witness :
    (waveAccessor (mkSimState () 1 2 : SimState Unit ℚ) = Except.error Err.state ↔
        (mkSimState () 1 2 : SimState Unit ℚ).hasRun = false) ∧
      waveAccessor sampleSim2 = Except.error Err.state ∧
      waveAccessor (runSim sampleSim2).1 = Except.ok (runSim sampleSim2).1.wave :=
  wave_accessor_requires_run (mkSimState () 1 2) (runSim sampleSim2).1 sampleVal rfl

/-- Claim C7: calling `run()` with no source raises the StateError and leaves
the whole state — in particular the wave array and the `hasRun` flag —
unchanged (`simulation.py` lines 86-87: the check precedes any mutation). -/
theorem run_without_source_errors (s : SimState G F) (h : s.source = none) :
    runSim s = (s, some Err.state) := by
  simp [runSim, h]

/-- Concrete instantiation of `run_without_source_errors`. -/
theorem run_without_source_errors_witness :
    (mkSimState () 1 1 : SimState Unit ℚ).source = none ∧
      runSim (mkSimState () 1 1 : SimState Unit ℚ) = (mkSimState () 1 1, some Err.state) :=
  ⟨rfl, run_without_source_errors (mkSimState () 1 1) rfl⟩

/-- Claim C8: every call `sim.set_boundaries(b)` following the documented
interface fails — the source's `def set_boundaries(boundaries)` lacks a
`self` parameter, so the bound call has an arity mismatch and raises
`TypeError` before the `pass` body runs; it never silently returns. -/
theorem set_boundaries_call_errors (s : SimState G F)
    (b : List (String × String)) :
    setBoundariesCall s b = Except.error Err.typeError := rfl

/-- Claim C10: `run()` only ever mutates the wave array and the `hasRun`
flag; the grid, the time parameters and the source are identical after the
call, whether it succeeds or fails (`simulation.py` lines 81-93). -/
theorem run_preserves_config {s : SimState G F} {val : ℚ → Option F}
    (h : s.source = some val) :
    (runSim s).1.grid = s.grid ∧ (runSim s).1.timeStep = s.timeStep ∧
      (runSim s).1.nsteps = s.nsteps ∧ (runSim s).1.source = s.source := by
  rw [runSim_of_some h]
  cases hb : (runFrom val s.timeStep 0 s.nsteps s.wave).2 with
  | true => simp [hb]
  | false => simp [hb]

/-- Concrete instantiation of `run_preserves_config`. -/
theorem run_preserves_config_witness :
    sampleSim2.source = some sampleVal ∧
      ((runSim sampleSim2).1.grid = sampleSim2.grid ∧
        (runSim sampleSim2).1.timeStep = sampleSim2.timeStep ∧
        (runSim sampleSim2).1.nsteps = sampleSim2.nsteps ∧
        (runSim sampleSim2).1.source = sampleSim2.source) :=
  ⟨rfl, run_preserves_config rfl⟩

noncomputable section

/-- `courant_number` (`simulation.py` line 37): `float(ndim) ** 0.5`, the
theoretically optimal Courant number for the grid dimensionality. -/
def courant_number (ndim : ℕ) : ℝ := (ndim : ℝ) ^ (0.5 : ℝ)

/-- `max_step` (line 42): the largest stable time step, from the Courant
number, the grid spacing and the maximum wave speed.  The `Grid` module is
not among the sources; per the spec's §3 it passes `spacing` through
unchanged and exposes the speed field, whose maximum for a scalar speed is
the scalar itself. -/
def max_step (ndim : ℕ) (spacing max_speed : ℝ) : ℝ :=
  courant_number ndim * spacing / max_speed

/-- `power` (line 45): `10 ** floor(log10(max_step))`, the order of magnitude
of its argument. -/
def stepPower (m : ℝ) : ℝ := (10 : ℝ) ^ (⌊Real.logb 10 m⌋ : ℤ)

/-- `coef` (line 46): `int(floor(max_step / power))`, the leading digit. -/
def stepCoef (m : ℝ) : ℤ := ⌊m / stepPower m⌋

/-- `step` (line 47): `coef * power`. -/
def derivedStep (ndim : ℕ) (spacing max_speed : ℝ) : ℝ :=
  (stepCoef (max_step ndim spacing max_speed) : ℝ) *
    stepPower (max_step ndim spacing max_speed)

/-- Modelled from the spec: `Time` (module `waver/components/_time.py`, not
among the sources) — §4.2: `nsteps` is the smallest number of steps of size
`step` covering `duration`, i.e. `ceil(duration / step)`. -/
def nstepsOf (step duration : ℝ) : ℕ := ⌈duration / step⌉.toNat

/-- The numeric outcome of `Simulation.__init__` (lines 33-49) for a scalar
speed: the derived time step and the step count, with `ndim` the length of
`size`. -/
def simulationDerived (size : List ℝ) (spacing speed duration : ℝ) : ℝ × ℕ :=
  (derivedStep size.length spacing speed,
   nstepsOf (derivedStep size.length spacing speed) duration)

/-- The order-of-magnitude factor is always positive. -/
theorem stepPower_pos (m : ℝ) : 0 < stepPower m :=
  zpow_pos (by norm_num) _

/-- Rounding to the leading digit never rounds up. -/
theorem derivedStep_le_max_step (ndim : ℕ) (spacing max_speed : ℝ) :
    derivedStep ndim spacing max_speed ≤ max_step ndim spacing max_speed := by
  have hp := stepPower_pos (max_step ndim spacing max_speed)
  have h1 : (stepCoef (max_step ndim spacing max_speed) : ℝ) ≤
      max_step ndim spacing max_speed / stepPower (max_step ndim spacing max_speed) :=
    Int.floor_le _
  calc derivedStep ndim spacing max_speed
      ≤ (max_step ndim spacing max_speed / stepPower (max_step ndim spacing max_speed)) *
          stepPower (max_step ndim spacing max_speed) :=
        mul_le_mul_of_nonneg_right h1 hp.le
    _ = max_step ndim spacing max_speed := div_mul_cancel₀ _ hp.ne'

/-- `float(ndim) ** 0.5` is the square root of the dimensionality. -/
theorem courant_number_eq_sqrt (ndim : ℕ) :
    courant_number ndim = Real.sqrt ndim := by
  rw [courant_number, Real.sqrt_eq_rpow]
  norm_num

/-- Claim C1: for positive spacing, duration and scalar positive speed, the
derived step never exceeds the CFL stability bound
`sqrt(ndim) * spacing / speed`, `ndim` being the length of `size`. -/
theorem step_le_stability_bound (size : List ℝ) (spacing speed duration : ℝ)
    (hsp : 0 < spacing) (hdur : 0 < duration) (hv : 0 < speed) :
    (simulationDerived size spacing speed duration).1 ≤
      Real.sqrt size.length * spacing / speed := by
  have h := derivedStep_le_max_step size.length spacing speed
  rw [max_step, courant_number_eq_sqrt] at h
  exact h

/-- Concrete instantiation of `step_le_stability_bound`. -/
theorem step_le_stability_bound_witness :
    (0 : ℝ) < 1 ∧ (simulationDerived [1] 1 1 1).1 ≤ Real.sqrt ([1] : List ℝ).length * 1 / 1 :=
  ⟨by norm_num, step_le_stability_bound [1] 1 1 1 (by norm_num) (by norm_num) (by norm_num)⟩

/-- For a positive argument, the argument divided by its order of magnitude
lies in `[1, 10)`. -/
theorem div_stepPower_mem (m : ℝ) (hm : 0 < m) :
    1 ≤ m / stepPower m ∧ m / stepPower m < 10 := by
  have hp := stepPower_pos m
  have hten : (1 : ℝ) < 10 := by norm_num
  have hpow : stepPower m = (10 : ℝ) ^ ((⌊Real.logb 10 m⌋ : ℤ) : ℝ) := by
    rw [stepPower, Real.rpow_intCast]
  have hlogm : (10 : ℝ) ^ Real.logb 10 m = m :=
    Real.rpow_logb (by norm_num) (by norm_num) hm
  constructor
  · rw [le_div_iff₀ hp, one_mul, hpow]
    calc (10 : ℝ) ^ ((⌊Real.logb 10 m⌋ : ℤ) : ℝ)
        ≤ (10 : ℝ) ^ Real.logb 10 m :=
          (Real.rpow_le_rpow_left_iff hten).mpr (Int.floor_le _)
      _ = m := hlogm
  · rw [div_lt_iff₀ hp, hpow]
    calc m = (10 : ℝ) ^ Real.logb 10 m := hlogm.symm
      _ < (10 : ℝ) ^ (((⌊Real.logb 10 m⌋ : ℤ) : ℝ) + 1) :=
          (Real.rpow_lt_rpow_left_iff hten).mpr (Int.lt_floor_add_one _)
      _ = (10 : ℝ) ^ ((⌊Real.logb 10 m⌋ : ℤ) : ℝ) * 10 := by
          rw [Real.rpow_add (by norm_num), Real.rpow_one]
      _ = 10 * (10 : ℝ) ^ ((⌊Real.logb 10 m⌋ : ℤ) : ℝ) := mul_comm _ _

/-- Claim C2: for a Simulation with positive spacing and positive (finite)
maximum speed on a grid of at least one dimension, the derived step is
exactly `floor(max_step / 10^floor(log10 max_step)) * 10^floor(log10
max_step)`, and the leading coefficient is an integer in `[1, 9]`. -/
theorem step_single_leading_digit (size : List ℝ) (spacing speed duration : ℝ)
    (hnd : size ≠ []) (hsp : 0 < spacing) (hv : 0 < speed) :
    (simulationDerived size spacing speed duration).1 =
        (stepCoef (max_step size.length spacing speed) : ℝ) *
          stepPower (max_step size.length spacing speed) ∧
      1 ≤ stepCoef (max_step size.length spacing speed) ∧
      stepCoef (max_step size.length spacing speed) ≤ 9 := by
  have hc : 0 < courant_number size.length := by
    apply Real.rpow_pos_of_pos
    exact_mod_cast List.length_pos.mpr hnd
  have hm : 0 < max_step size.length spacing speed :=
    div_pos (mul_pos hc hsp) hv
  obtain ⟨h1, h2⟩ := div_stepPower_mem (max_step size.length spacing speed) hm
  refine ⟨rfl, ?_, ?_⟩
  · exact Int.le_floor.mpr (by exact_mod_cast h1)
  · have : stepCoef (max_step size.length spacing speed) < 10 :=
      Int.floor_lt.mpr (by exact_mod_cast h2)
    omega

/-- Concrete instantiation of `step_single_leading_digit`. -/
theorem step_single_leading_digit_witness :
    ([1] : List ℝ) ≠ [] ∧
      ((simulationDerived [1] 1 1 1).1 =
          (stepCoef (max_step ([1] : List ℝ).length 1 1) : ℝ) *
            stepPower (max_step ([1] : List ℝ).length 1 1) ∧
        1 ≤ stepCoef (max_step ([1] : List ℝ).length 1 1) ∧
        stepCoef (max_step ([1] : List ℝ).length 1 1) ≤ 9) :=
  ⟨by simp, step_single_leading_digit [1] 1 1 1 (by simp) (by norm_num) (by norm_num)⟩

/-- Claim C9: the derivation of `step` and `nsteps` from
`(size, spacing, speed, duration)` is deterministic: two constructions from
the same inputs agree. -/
theorem construction_deterministic (size : List ℝ) (spacing speed duration : ℝ)
    (p q : ℝ × ℕ)
    (h1 : p = simulationDerived size spacing speed duration)
    (h2 : q = simulationDerived size spacing speed duration) :
    p.1 = q.1 ∧ p.2 = q.2 := by
  subst h1
  subst h2
  exact ⟨rfl, rfl⟩

/-- Concrete instantiation of `construction_deterministic`. -/
theorem construction_deterministic_witness :
    (simulationDerived [1] 1 1 1).1 = (simulationDerived [1] 1 1 1).1 ∧
      (simulationDerived [1] 1 1 1).2 = (simulationDerived [1] 1 1 1).2 :=
  construction_deterministic [1] 1 1 1 _ _ rfl rfl

/-- IEEE-754 double values as far as the step derivation observes them: a
finite real (the two signed zeros are collapsed into `fin 0`, which is sound
here because every operation used below treats them alike), the two
infinities and NaN.  Numpy arithmetic on the special values emits warnings,
not exceptions, so they flow through the derivation. -/
inductive EFloat where
  | fin (x : ℝ)
  | posInf
  | negInf
  | nan

/-- Floating-point division as used at lines 42 and 46 of `simulation.py`:
division by zero yields a signed infinity (or NaN for `0/0`), a finite value
over an infinity yields zero, an infinity over an infinity yields NaN, and
NaN propagates. -/
def divE : EFloat → EFloat → EFloat
  | .nan, _ => .nan
  | _, .nan => .nan
  | .fin a, .fin b =>
    if b = 0 then (if a = 0 then .nan else if 0 < a then .posInf else .negInf)
    else .fin (a / b)
  | .fin _, .posInf => .fin 0
  | .fin _, .negInf => .fin 0
  | .posInf, .fin b => if 0 ≤ b then .posInf else .negInf
  | .negInf, .fin b => if 0 ≤ b then .negInf else .posInf
  | .posInf, .posInf => .nan
  | .posInf, .negInf => .nan
  | .negInf, .posInf => .nan
  | .negInf, .negInf => .nan

/-- `np.log10` (line 45): `-inf` at zero, NaN on negative values, `inf` at
`inf`, NaN at NaN. -/
def log10E : EFloat → EFloat
  | .fin x => if x = 0 then .negInf else if x < 0 then .nan else .fin (Real.logb 10 x)
  | .posInf => .posInf
  | .negInf => .nan
  | .nan => .nan

/-- `np.floor` (lines 45 and 46): fixes the special values. -/
def floorE : EFloat → EFloat
  | .fin x => .fin (⌊x⌋ : ℝ)
  | .posInf => .posInf
  | .negInf => .negInf
  | .nan => .nan

/-- `np.power(10, ·)` (line 45): `10^inf = inf`, `10^(-inf) = 0`, NaN
propagates. -/
def pow10E : EFloat → EFloat
  | .fin x => .fin ((10 : ℝ) ^ x)
  | .posInf => .posInf
  | .negInf => .fin 0
  | .nan => .nan

/-- Python's `int(·)` on a float (line 46): truncation toward zero on finite
values; `int(nan)` raises `ValueError` and `int(±inf)` raises
`OverflowError`, modelled as `none`. -/
def toIntE : EFloat → Option ℤ
  | .fin x => some (if 0 ≤ x then ⌊x⌋ else ⌈x⌉)
  | .posInf => none
  | .negInf => none
  | .nan => none

/-- Lines 41-47 of `simulation.py` under floating-point semantics: from the
finite positive product `courant_number * spacing` and the value of
`np.max(speed)`, compute `coef` and `power`; `none` models the constructor
raising at the `int(...)` conversion. -/
def deriveStepE (courant spacing : ℝ) (maxSpeed : EFloat) : Option (ℤ × EFloat) :=
  let ms := divE (.fin (courant * spacing)) maxSpeed
  let power := pow10E (floorE (log10E ms))
  (toIntE (floorE (divE ms power))).map (fun c => (c, power))

/-- Claim C3: when the maximum of the speed field is zero or non-finite, the
constructor fails — `max_step` becomes `inf`, `0` or NaN, the quotient
`max_step / power` becomes NaN, and the `int(...)` call at line 46 raises —
instead of producing a Simulation with an undefined or non-finite step. -/
theorem nonfinite_max_speed_fails (courant spacing : ℝ) (maxSpeed : EFloat)
    (hc : 0 < courant) (hsp : 0 < spacing)
    (h : maxSpeed = .fin 0 ∨ maxSpeed = .posInf ∨ maxSpeed = .negInf ∨
      maxSpeed = .nan) :
    deriveStepE courant spacing maxSpeed = none := by
  have hcs : 0 < courant * spacing := mul_pos hc hsp
  rcases h with rfl | rfl | rfl | rfl
  · simp [deriveStepE, divE, log10E, floorE, pow10E, toIntE, hcs, hcs.ne']
  · simp [deriveStepE, divE, log10E, floorE, pow10E, toIntE]
  · simp [deriveStepE, divE, log10E, floorE, pow10E, toIntE]
  · simp [deriveStepE, divE, log10E, floorE, pow10E, toIntE]

/-- Concrete instantiation of `nonfinite_max_speed_fails`. -/
theorem nonfinite_max_speed_fails_witness :
    (0 : ℝ) < 1 ∧ deriveStepE 1 1 (EFloat.fin 0) = none :=
  ⟨by norm_num,
    nonfinite_max_speed_fails 1 1 (EFloat.fin 0) (by norm_num) (by norm_num)
      (Or.inl rfl)⟩

end

end Waver
